import Mathlib

/-!
Verification of the tel-on-chain UI liquidity pipeline.

This file gives a shallow embedding, over exact rationals, of the
normalization / aggregation / formatting pipeline of the tel-ui-web frontend:

* `useLiquidityData` (pair mode): sell-wall selection by price type, liquidity
  totals, strongest-wall selection, and the chart-data construction
  (midpoint price, buy/sell split, sort by price);
* `LiquidityChart.processedData`: percent-from-current annotation, window
  filter, sort by percent;
* `StatsSummary`: aggregate-mode totals and strongest levels, the buy/sell
  ratio, and the percentage-share expressions (which divide without a zero
  guard, modelled with an explicit JS-number value including NaN/infinities);
* `TokenAggregatePage.chartData`: the null-price filter and midpoint mapping;
* `formatPrice` in `lib/utils.ts`: the decimal-place selection rules,
  including the leading-zero count taken from the decimal string (exact for
  prices at or above 10^-6, rounded to 12 places below it).

JavaScript numbers are modelled as `ℚ` (the spec treats all quantities as
reals); the dedicated `JSNum` type is used exactly where the source can
produce NaN or an infinity.  The display-only string fields (`priceRange`,
`percentageLabel`) are not modelled; all numeric fields are.
-/

/-- A pair-mode liquidity wall (`LiquidityWall` in `types/api.ts`):
`{ price_lower, price_upper, liquidity_value, dex_sources }`. -/
structure Wall where
  price_lower : ℚ
  price_upper : ℚ
  liquidity_value : ℚ
  dex_sources : List (String × ℚ)
  deriving DecidableEq

/-- The side tag of a level / chart point (`'Buy' | 'Sell'`, and the
lower-case `type: 'buy' | 'sell'` of chart points). -/
inductive Side where
  | buy : Side
  | sell : Side
  deriving DecidableEq

/-- One entry of the chart-data array built in `useLiquidityData`
(src/unnamed/part_005, lines 60-77) and in `TokenAggregatePage.chartData`.
The display-only `priceRange` string is omitted; all numeric fields and the
`type` tag are kept. -/
structure ChartPoint where
  price : ℚ
  buyLiquidity : ℚ
  sellLiquidity : ℚ
  type : Side
  dexSources : List (String × ℚ)
  deriving DecidableEq

/-- A chart point after `LiquidityChart.processedData` has annotated it with
`percentageFromCurrent` (src/unnamed/part_001, lines 109-115).  The
display-only `percentageLabel` string is omitted. -/
structure AnnotatedChartPoint extends ChartPoint where
  percentageFromCurrent : ℚ
  deriving DecidableEq

/-- The buy-side chart point for one wall (part_005 lines 61-68): midpoint
price, the wall's value as `buyLiquidity`, `0` as `sellLiquidity`. -/
def mkBuyChartPoint (w : Wall) : ChartPoint :=
  { price := (w.price_lower + w.price_upper) / 2
    buyLiquidity := w.liquidity_value
    sellLiquidity := 0
    type := Side.buy
    dexSources := w.dex_sources }

/-- The sell-side chart point for one wall (part_005 lines 69-76). -/
def mkSellChartPoint (w : Wall) : ChartPoint :=
  { price := (w.price_lower + w.price_upper) / 2
    buyLiquidity := 0
    sellLiquidity := w.liquidity_value
    type := Side.sell
    dexSources := w.dex_sources }

/-- `chartData` of `useLiquidityData` (part_005 lines 60-77): buy points then
sell points, sorted ascending by `price`.  JavaScript `Array.prototype.sort`
with the comparator `(a, b) => a.price - b.price` is a stable ascending sort,
embedded as a stable merge sort. -/
def buildChartData (buyWalls sellWalls : List Wall) : List ChartPoint :=
  (buyWalls.map mkBuyChartPoint ++ sellWalls.map mkSellChartPoint).mergeSort
    (fun a b => decide (a.price ≤ b.price))

/-- `reduce((sum, wall) => sum + wall.liquidity_value, 0)` over a wall list
(part_005 lines 38-45), used for both `totalBuyLiquidity` and
`totalSellLiquidity`. -/
def totalLiquidity (walls : List Wall) : ℚ :=
  walls.foldl (fun sum w => sum + w.liquidity_value) 0

/-- One step of the strongest-wall reduction: the accumulator is replaced
exactly when the new element is strictly greater
(`wall.liquidity_value > strongest.liquidity_value ? wall : strongest`). -/
def stepStrongest {α : Type} (f : α → ℚ) (strongest x : α) : α :=
  if f strongest < f x then x else strongest

/-- The strongest-element reduction, shared by part_005 lines 48-57 (pair
mode, keyed by `liquidity_value`) and StatsSummary.tsx lines 49-56 (aggregate
mode, keyed by `token1_liquidity`): `reduce` over the whole array with the
first element as the initial value.  On an empty array the JavaScript code
yields `undefined` (part_005 passes `walls[0]` as initial value to `reduce`,
StatsSummary guards with `length > 0`); both are modelled as `none`. -/
def pickStrongest {α : Type} (f : α → ℚ) : List α → Option α
  | [] => none
  | w :: ws => some ((w :: ws).foldl (stepStrongest f) w)

/-- `strongestBuyWall` / `strongestSellWall` of part_005 lines 48-57. -/
def strongestWall (walls : List Wall) : Option Wall :=
  pickStrongest (fun w => w.liquidity_value) walls

/-- The sell-wall pricing convention (`priceType: 'wall' | 'current'`). -/
inductive PriceType where
  | wall : PriceType
  | current : PriceType
  deriving DecidableEq

/-- The wall lists of a pair-mode `LiquidityWallsResponse` (`types/api.ts`). -/
structure WallsResponse where
  buy_walls : List Wall
  sell_walls_in_wall_price : List Wall
  sell_walls_in_current_price : List Wall
  deriving DecidableEq

/-- Part_005 line 35: `priceType === 'wall' ? data.sell_walls_in_wall_price
: data.sell_walls_in_current_price`. -/
def selectSellWalls (priceType : PriceType) (d : WallsResponse) : List Wall :=
  match priceType with
  | PriceType.wall => d.sell_walls_in_wall_price
  | PriceType.current => d.sell_walls_in_current_price

/-- The derived fields `useLiquidityData` adds to the raw response
(part_005 lines 79-86). -/
structure PairProcessed where
  totalBuyLiquidity : ℚ
  totalSellLiquidity : ℚ
  strongestBuyWall : Option Wall
  strongestSellWall : Option Wall
  chartData : List ChartPoint
  deriving DecidableEq

/-- `processedData` of `useLiquidityData` (part_005 lines 31-87): select the
sell walls by price type, then totals, strongest walls and chart data. -/
def processPair (priceType : PriceType) (d : WallsResponse) : PairProcessed :=
  let sellWalls := selectSellWalls priceType d
  { totalBuyLiquidity := totalLiquidity d.buy_walls
    totalSellLiquidity := totalLiquidity sellWalls
    strongestBuyWall := strongestWall d.buy_walls
    strongestSellWall := strongestWall sellWalls
    chartData := buildChartData d.buy_walls sellWalls }

/-- The annotation step of `LiquidityChart.processedData` (part_001 lines
109-115): `percentageFromCurrent = (price - currentPrice) / currentPrice *
100`, other fields spread unchanged. -/
def annotatePoint (currentPrice : ℚ) (p : ChartPoint) : AnnotatedChartPoint :=
  { toChartPoint := p
    percentageFromCurrent := (p.price - currentPrice) / currentPrice * 100 }

/-- `LiquidityChart.processedData` (part_001 lines 106-118): annotate each
point, keep those with `|percentageFromCurrent| <= scaleRange`, sort
ascending by `percentageFromCurrent` (stable JavaScript sort).  The
empty-input early return of the source is the same function on `[]`. -/
def processedData (data : List ChartPoint) (currentPrice scaleRange : ℚ) :
    List AnnotatedChartPoint :=
  ((data.map (annotatePoint currentPrice)).filter
      (fun p => decide (|p.percentageFromCurrent| ≤ scaleRange))).mergeSort
    (fun a b => decide (a.percentageFromCurrent ≤ b.percentageFromCurrent))

/-- An aggregate-mode price level (`PriceLiquidity` in `types/api.ts`).  The
prices are `Option`s because `TokenAggregatePage.chartData` explicitly
filters out levels whose `lower_price` or `upper_price` is null. -/
structure PriceLevel where
  side : Side
  lower_price : Option ℚ
  upper_price : Option ℚ
  token0_liquidity : ℚ
  token1_liquidity : ℚ
  deriving DecidableEq

/-- `price_levels.filter(level => level.side === 'Buy')`
(StatsSummary.tsx line 43). -/
def buyLevels (levels : List PriceLevel) : List PriceLevel :=
  levels.filter (fun l => decide (l.side = Side.buy))

/-- `price_levels.filter(level => level.side === 'Sell')`
(StatsSummary.tsx line 44). -/
def sellLevels (levels : List PriceLevel) : List PriceLevel :=
  levels.filter (fun l => decide (l.side = Side.sell))

/-- `aggregateBuyLiquidity` (StatsSummary.tsx line 46). -/
def aggBuyTotal (levels : List PriceLevel) : ℚ :=
  (buyLevels levels).foldl (fun sum l => sum + l.token1_liquidity) 0

/-- `aggregateSellLiquidity` (StatsSummary.tsx line 47). -/
def aggSellTotal (levels : List PriceLevel) : ℚ :=
  (sellLevels levels).foldl (fun sum l => sum + l.token1_liquidity) 0

/-- `strongestBuy` (StatsSummary.tsx lines 49-52): guarded `reduce`,
`undefined` on an empty side. -/
def strongestBuyLevel (levels : List PriceLevel) : Option PriceLevel :=
  pickStrongest (fun l => l.token1_liquidity) (buyLevels levels)

/-- `strongestSell` (StatsSummary.tsx lines 53-56). -/
def strongestSellLevel (levels : List PriceLevel) : Option PriceLevel :=
  pickStrongest (fun l => l.token1_liquidity) (sellLevels levels)

/-- `TokenAggregatePage.chartData` (token-aggregate/page.tsx lines 39-51):
drop levels with a null `lower_price` or `upper_price`, then map each level
to a chart point at the midpoint price; `dexSources` is `{}` and the list is
not sorted here.  The `getD 0` extractions are guarded by the `isSome`
filter, mirroring the non-null assertion implicit in the source. -/
def aggregateChartData (levels : List PriceLevel) : List ChartPoint :=
  (levels.filter (fun l => l.lower_price.isSome && l.upper_price.isSome)).map
    (fun l =>
      { price := (l.lower_price.getD 0 + l.upper_price.getD 0) / 2
        buyLiquidity := if l.side = Side.buy then l.token1_liquidity else 0
        sellLiquidity := if l.side = Side.sell then l.token1_liquidity else 0
        type := l.side
        dexSources := [] })

/-- The aggregate-mode outputs (StatsSummary.tsx lines 42-67 and
token-aggregate/page.tsx lines 39-51). -/
structure AggregateProcessed where
  totalBuyLiquidity : ℚ
  totalSellLiquidity : ℚ
  strongestBuyLevel : Option PriceLevel
  strongestSellLevel : Option PriceLevel
  chartData : List ChartPoint
  deriving DecidableEq

/-- The aggregate-mode pipeline.  The page keeps a `priceType` toggle in
scope, but no aggregate computation reads it, so the parameter is unused
here exactly as in the source. -/
def processAggregate (_priceType : PriceType) (levels : List PriceLevel) :
    AggregateProcessed :=
  { totalBuyLiquidity := aggBuyTotal levels
    totalSellLiquidity := aggSellTotal levels
    strongestBuyLevel := strongestBuyLevel levels
    strongestSellLevel := strongestSellLevel levels
    chartData := aggregateChartData levels }

/-- The value of a JavaScript floating-point expression, restricted to what
the statistics code can produce: an exact number, NaN, or a signed infinity.
Needed because the percentage-share expressions in StatsSummary.tsx divide
by the combined total without a zero guard. -/
inductive JSNum where
  | num : ℚ → JSNum
  | nan : JSNum
  | posInf : JSNum
  | negInf : JSNum
  deriving DecidableEq

/-- JavaScript division: `0 / 0` is NaN, `a / 0` for nonzero `a` is a signed
infinity, otherwise the exact quotient. -/
def jsDiv (a b : ℚ) : JSNum :=
  if b = 0 then
    if a = 0 then JSNum.nan else if 0 < a then JSNum.posInf else JSNum.negInf
  else JSNum.num (a / b)

/-- JavaScript multiplication of an intermediate value by a finite constant:
NaN propagates, an infinity times zero is NaN, an infinity times a nonzero
constant keeps or flips its sign. -/
def jsMulConst (x : JSNum) (c : ℚ) : JSNum :=
  match x with
  | JSNum.num q => JSNum.num (q * c)
  | JSNum.nan => JSNum.nan
  | JSNum.posInf =>
    if c = 0 then JSNum.nan else if 0 < c then JSNum.posInf else JSNum.negInf
  | JSNum.negInf =>
    if c = 0 then JSNum.nan else if 0 < c then JSNum.negInf else JSNum.posInf

/-- `buyToSellRatio` (StatsSummary.tsx line 82):
`totalSellLiquidity > 0 ? totalBuyLiquidity / totalSellLiquidity : 0`.
The guard keeps the division real, so plain `ℚ` suffices here. -/
def buyToSellRatio (totalBuy totalSell : ℚ) : ℚ :=
  if 0 < totalSell then totalBuy / totalSell else 0

/-- The buy percentage share rendered at StatsSummary.tsx line 136:
`(totalBuyLiquidity / totalLiquidity) * 100` with
`totalLiquidity = totalBuyLiquidity + totalSellLiquidity` (line 83) and no
zero guard. -/
def buySharePercent (totalBuy totalSell : ℚ) : JSNum :=
  jsMulConst (jsDiv totalBuy (totalBuy + totalSell)) 100

/-- The sell percentage share rendered at StatsSummary.tsx line 154. -/
def sellSharePercent (totalBuy totalSell : ℚ) : JSNum :=
  jsMulConst (jsDiv totalSell (totalBuy + totalSell)) 100

/-- The leading-zero counting loop of `formatPrice` (utils.ts lines 128-135):
the number of consecutive zero digits immediately after the decimal point of
a positive number below one.  The digit at position `i` is zero exactly when
the value times `10 ^ i` is still below one, so the loop is embedded by
repeated scaling.  Twelve iterations always suffice for the call sites: the
string scanned by the source never has more than 12 fractional digits that
matter (`toFixed(12)` below `10^-6`, and at most 5 leading zeros above). -/
def countLeadingZeroDigits : ℕ → ℚ → ℕ
  | 0, _ => 0
  | fuel + 1, p =>
    if p * 10 < 1 then countLeadingZeroDigits fuel (p * 10) + 1 else 0

/-- Length in decimal digits of a natural number (`0` has length `0`),
with explicit fuel; 12 digits of fuel cover every value produced below. -/
def digitLenAux : ℕ → ℕ → ℕ
  | 0, _ => 0
  | fuel + 1, n => if n = 0 then 0 else digitLenAux fuel (n / 10) + 1

/-- Leading zeros of a natural number written zero-padded to `width` digits:
this is how many zeros the loop of utils.ts counts in a `toFixed(width)`
string whose integer part is `0`. -/
def padCount (width n : ℕ) : ℕ :=
  width - digitLenAux width n

/-- `price.toFixed(digits)` as an integer numerator: the ECMAScript
`toFixed` rounds to the nearest multiple of `10 ^ -digits`, ties away from
zero for positive inputs. -/
def toFixedScaled (p : ℚ) (digits : ℕ) : ℕ :=
  (⌊p * 10 ^ digits + 1 / 2⌋).toNat

/-- The leading-zero count `formatPrice` extracts from its decimal string
(utils.ts lines 120-135): below `10^-6` the string is `price.toFixed(12)`,
so the count is taken from the rounded 12-digit fraction; otherwise the
string is `price.toString()` and the count is exact. -/
def stringLeadingZeros (p : ℚ) : ℕ :=
  if p < 1 / 10 ^ 6 then padCount 12 (toFixedScaled p 12)
  else countLeadingZeroDigits 12 p

/-- The number of decimal places `formatPrice` renders (utils.ts lines
104-146): `none` is the bare `'0' + suffix` branch with no decimal
expansion, `some n` means `formatNumber(price, { decimals: n })`.  The
`decimalIndex === -1` fallback of the source is unreachable for a positive
price below one, whose decimal string always contains a point. -/
def priceDecimals (p : ℚ) : Option ℕ :=
  if 1000 ≤ p then some 2
  else if 1 ≤ p then some 4
  else if p = 0 then none
  else some (if 3 ≤ stringLeadingZeros p then
      min (stringLeadingZeros p + 4) 12
    else 6)

/-- Modelled from the spec: the claim's decimal-place rule, with the
leading-zero count taken from the price itself ("count leading zero digits
immediately after the decimal point") rather than from the rounded string.
Twelve digits of fuel are faithful: the rule caps its result at 12, and a
count of 12 already saturates the cap. -/
def trueLeadingZeros (p : ℚ) : ℕ :=
  countLeadingZeroDigits 12 p

/-- Modelled from the spec: the decimal-place selection exactly as the claim
states it, to be compared with `priceDecimals` from the source. -/
def priceDecimalsSpec (p : ℚ) : Option ℕ :=
  if 1000 ≤ p then some 2
  else if 1 ≤ p then some 4
  else if p = 0 then none
  else if trueLeadingZeros p < 3 then some 6
  else some (min (trueLeadingZeros p + 4) 12)

/-- A well-formed level in the sense of the spec's `MalformedLevel`
taxonomy: `priceLower ≤ priceUpper` and a non-negative `liquidityValue`. -/
def wellFormedWall (w : Wall) : Bool :=
  decide (w.price_lower ≤ w.price_upper) && decide (0 ≤ w.liquidity_value)

/-- Modelled from the spec: total liquidity after discarding malformed
levels, as the spec's `MalformedLevel` rule demands; the source has no such
filter, so this definition exists only to be compared with
`totalLiquidity`. -/
def totalLiquiditySpec (walls : List Wall) : ℚ :=
  totalLiquidity (walls.filter wellFormedWall)

/-- Modelled from the spec: strongest-wall selection after discarding
malformed levels, to be compared with `strongestWall`. -/
def strongestWallSpec (walls : List Wall) : Option Wall :=
  strongestWall (walls.filter wellFormedWall)

/-- A left fold accumulating `f` over a list is the sum of the mapped list;
this is the algebraic form of the `reduce((sum, x) => sum + f(x), 0)`
pattern. -/
theorem foldl_add_eq_sum {α : Type} (f : α → ℚ) (l : List α) :
    l.foldl (fun sum x => sum + f x) 0 = (l.map f).sum := by
  rw [List.sum_eq_foldl, List.foldl_map]

/-- Splitting a mapped sum along a Boolean predicate. -/
theorem sum_map_filter_add {α : Type} (p : α → Bool) (f : α → ℚ) (l : List α) :
    ((l.filter p).map f).sum + ((l.filter fun x => !(p x)).map f).sum =
      (l.map f).sum := by
  induction l with
  | nil => simp
  | cons x l ih =>
    by_cases hx : p x <;> simp [List.filter_cons, hx] <;> linarith [ih]

/-- The fold of `stepStrongest` returns an element at least as large (under
`f`) as the seed and as every list element, and either it is the seed or it
is a list element strictly greater than the seed with everything before it
strictly smaller. -/
theorem foldl_stepStrongest_spec {α : Type} (f : α → ℚ) (l : List α) :
    ∀ a : α, ∃ m, l.foldl (stepStrongest f) a = m ∧ f a ≤ f m ∧
      (∀ x ∈ l, f x ≤ f m) ∧
      (m = a ∨ ∃ l₁ l₂, l = l₁ ++ m :: l₂ ∧ f a < f m ∧
        ∀ x ∈ l₁, f x < f m) := by
  induction l with
  | nil => intro a; exact ⟨a, rfl, le_refl _, by simp, Or.inl rfl⟩
  | cons x l ih =>
    intro a
    obtain ⟨m, hm, h1, h2, h3⟩ := ih (stepStrongest f a x)
    have hax : f a ≤ f (stepStrongest f a x) := by
      unfold stepStrongest; split
      · exact le_of_lt (by assumption)
      · exact le_refl _
    have hxx : f x ≤ f (stepStrongest f a x) := by
      unfold stepStrongest; split
      · exact le_refl _
      · exact le_of_not_lt (by assumption)
    refine ⟨m, by rw [List.foldl_cons, hm], le_trans hax h1, ?_, ?_⟩
    · intro y hy
      rcases List.mem_cons.mp hy with rfl | hyl
      · exact le_trans hxx h1
      · exact h2 y hyl
    · rcases h3 with heq | ⟨l₁, l₂, hsplit, hlt, hall⟩
      · by_cases hcase : f a < f x
        · have hstep : stepStrongest f a x = x := if_pos hcase
          refine Or.inr ⟨[], l, ?_, ?_, by simp⟩
          · rw [heq, hstep]; rfl
          · rw [heq, hstep]; exact hcase
        · have hstep : stepStrongest f a x = a := if_neg hcase
          exact Or.inl (by rw [heq, hstep])
      · refine Or.inr ⟨x :: l₁, l₂, by rw [hsplit]; rfl,
          lt_of_le_of_lt hax hlt, ?_⟩
        intro y hy
        rcases List.mem_cons.mp hy with rfl | hyl
        · exact lt_of_le_of_lt hxx hlt
        · exact hall y hyl

/-- `pickStrongest` on a nonempty list returns the first element attaining
the maximum of `f`: it is a maximum over the whole list and everything
strictly before it is strictly smaller. -/
theorem pickStrongest_spec {α : Type} (f : α → ℚ) (l : List α) (h : l ≠ []) :
    ∃ m l₁ l₂, pickStrongest f l = some m ∧ l = l₁ ++ m :: l₂ ∧
      (∀ x ∈ l, f x ≤ f m) ∧ ∀ x ∈ l₁, f x < f m := by
  cases l with
  | nil => exact absurd rfl h
  | cons w ws =>
    have hstep : stepStrongest f w w = w := if_neg (lt_irrefl _)
    obtain ⟨m, hm, h1, h2, h3⟩ := foldl_stepStrongest_spec f ws w
    have hpick : pickStrongest f (w :: ws) = some m := by
      show some ((w :: ws).foldl (stepStrongest f) w) = some m
      rw [List.foldl_cons, hstep, hm]
    have hmax : ∀ x ∈ w :: ws, f x ≤ f m := by
      intro x hx
      rcases List.mem_cons.mp hx with rfl | hxl
      · exact h1
      · exact h2 x hxl
    rcases h3 with heq | ⟨l₁, l₂, hsplit, hlt, hall⟩
    · exact ⟨m, [], ws, hpick, by rw [heq]; rfl, hmax, by simp⟩
    · refine ⟨m, w :: l₁, l₂, hpick, by rw [hsplit]; rfl, hmax, ?_⟩
      intro x hx
      rcases List.mem_cons.mp hx with rfl | hxl
      · exact hlt
      · exact hall x hxl

/-- If some element strictly dominates every other element under `f`, then
`pickStrongest` returns it. -/
theorem pickStrongest_dominant {α : Type} (f : α → ℚ) (l : List α) (b : α)
    (hb : b ∈ l) (hdom : ∀ x ∈ l, x ≠ b → f x < f b) :
    pickStrongest f l = some b := by
  obtain ⟨m, l₁, l₂, hm, hsplit, hmax, _⟩ :=
    pickStrongest_spec f l (List.ne_nil_of_mem hb)
  by_cases hmb : m = b
  · rw [hm, hmb]
  · have hmem : m ∈ l := by
      rw [hsplit]; exact List.mem_append_right _ (List.mem_cons_self _ _)
    exact absurd (hdom m hmem hmb) (not_lt.mpr (hmax b hb))

/-- The digit-counting loop computes the exact leading-zero count: if
`1 / 10 ^ (k + 1) ≤ p < 1 / 10 ^ k` (so the first nonzero digit of `p` sits
`k + 1` places after the point) and the fuel exceeds `k`, the loop returns
`k`. -/
theorem countLeadingZeroDigits_eq (k : ℕ) :
    ∀ (fuel : ℕ) (p : ℚ), k < fuel → (1 : ℚ) / 10 ^ (k + 1) ≤ p →
      p < 1 / 10 ^ k → countLeadingZeroDigits fuel p = k := by
  induction k with
  | zero =>
    intro fuel p hfuel hlo _
    cases fuel with
    | zero => omega
    | succ f =>
      have h10 : (1 : ℚ) ≤ p * 10 := by
        rw [div_le_iff₀ (by positivity)] at hlo
        norm_num at hlo
        linarith
      show (if p * 10 < 1 then countLeadingZeroDigits f (p * 10) + 1 else 0) = 0
      rw [if_neg (not_lt.mpr h10)]
  | succ k ih =>
    intro fuel p hfuel hlo hhi
    cases fuel with
    | zero => omega
    | succ f =>
      have hscale : (10 : ℚ) / 10 ^ (k + 1) = 1 / 10 ^ k := by
        rw [pow_succ]
        rw [div_eq_div_iff (by positivity) (by positivity)]
        ring
      have hhi10 : p * 10 < 1 / 10 ^ k := by
        rw [← hscale]
        calc p * 10 < 1 / 10 ^ (k + 1) * 10 :=
          mul_lt_mul_of_pos_right hhi (by norm_num)
        _ = 10 / 10 ^ (k + 1) := by ring
      have h1pow : (1 : ℚ) ≤ 10 ^ k := one_le_pow₀ (by norm_num)
      have hone : (1 : ℚ) / 10 ^ k ≤ 1 := by
        rw [div_le_one (by positivity)]
        exact h1pow
      have hbranch : p * 10 < 1 := lt_of_lt_of_le hhi10 hone
      have hlo10 : (1 : ℚ) / 10 ^ (k + 1) ≤ p * 10 := by
        have hscale2 : (1 : ℚ) / 10 ^ (k + 1) = 10 / 10 ^ (k + 2) := by
          rw [pow_succ]
          rw [div_eq_div_iff (by positivity) (by positivity)]
          ring
        rw [hscale2]
        calc (10 : ℚ) / 10 ^ (k + 2) = 1 / 10 ^ (k + 2) * 10 := by ring
        _ ≤ p * 10 := mul_le_mul_of_nonneg_right hlo (by norm_num)
      show (if p * 10 < 1 then countLeadingZeroDigits f (p * 10) + 1 else 0)
          = k + 1
      rw [if_pos hbranch, ih f (p * 10) (by omega) hlo10 hhi10]

/-- The digit-length helper is bounded by any digit count that bounds the
input, given at least that much fuel. -/
theorem digitLenAux_le (j : ℕ) :
    ∀ (fuel n : ℕ), n < 10 ^ j → j ≤ fuel → digitLenAux fuel n ≤ j := by
  induction j with
  | zero =>
    intro fuel n hn _
    have hn0 : n = 0 := by omega
    cases fuel with
    | zero => simp [digitLenAux]
    | succ f => simp [digitLenAux, hn0]
  | succ j ih =>
    intro fuel n hn hj
    cases fuel with
    | zero => omega
    | succ f =>
      show (if n = 0 then 0 else digitLenAux f (n / 10) + 1) ≤ j + 1
      by_cases hn0 : n = 0
      · rw [if_pos hn0]; omega
      · rw [if_neg hn0]
        have hdiv : n / 10 < 10 ^ j := by
          apply Nat.div_lt_of_lt_mul
          calc n < 10 ^ (j + 1) := hn
          _ = 10 * 10 ^ j := by ring
        have := ih f (n / 10) hdiv (by omega)
        omega

/-- Below `10^-6` the string-based count is taken from the `toFixed(12)`
rendering, whose fractional part starts with at least five zeros, so the
`leadingZeros >= 3` branch of `formatPrice` is always the one taken there. -/
theorem stringLeadingZeros_small (p : ℚ) (hs : p < 1 / 10 ^ 6) :
    stringLeadingZeros p = padCount 12 (toFixedScaled p 12) ∧
    5 ≤ stringLeadingZeros p := by
  have hout : stringLeadingZeros p = padCount 12 (toFixedScaled p 12) := by
    unfold stringLeadingZeros
    rw [if_pos hs]
  refine ⟨hout, ?_⟩
  have hfl : ⌊p * 10 ^ 12 + 1 / 2⌋ < 10 ^ 7 := by
    rw [Int.floor_lt]
    have hp12 : p * 10 ^ 12 < 10 ^ 6 := by
      rw [lt_div_iff₀ (by positivity)] at hs
      calc p * 10 ^ 12 = p * 10 ^ 6 * 10 ^ 6 := by ring
      _ < 1 * 10 ^ 6 := by nlinarith [pow_pos (show (0:ℚ) < 10 by norm_num) 6]
      _ = (10 : ℚ) ^ 6 := by ring
    push_cast
    nlinarith
  have hn : toFixedScaled p 12 < 10 ^ 7 := by
    unfold toFixedScaled
    omega
  have hd : digitLenAux 12 (toFixedScaled p 12) ≤ 7 :=
    digitLenAux_le 7 12 (toFixedScaled p 12) hn (by omega)
  rw [hout]
  unfold padCount
  omega

/-- C3: for every input, `totalBuyLiquidity` is the sum of `liquidity_value`
over the buy walls and `totalSellLiquidity` the sum over the (selected) sell
walls — the two sides use the same accumulation, stated here for an
arbitrary wall list — and in aggregate mode the totals are the sums of
`token1_liquidity` over the side-filtered levels; all totals are
non-negative whenever every level's value is non-negative (the data model's
invariant). -/
theorem total_liquidity_sum_nonneg :
    (∀ walls : List Wall,
        totalLiquidity walls = (walls.map (fun w => w.liquidity_value)).sum) ∧
    (∀ walls : List Wall, (∀ w ∈ walls, 0 ≤ w.liquidity_value) →
        0 ≤ totalLiquidity walls) ∧
    (∀ levels : List PriceLevel,
        aggBuyTotal levels =
          ((buyLevels levels).map (fun l => l.token1_liquidity)).sum ∧
        aggSellTotal levels =
          ((sellLevels levels).map (fun l => l.token1_liquidity)).sum) ∧
    (∀ levels : List PriceLevel, (∀ l ∈ levels, 0 ≤ l.token1_liquidity) →
        0 ≤ aggBuyTotal levels ∧ 0 ≤ aggSellTotal levels) := by
  have hwall : ∀ walls : List Wall,
      totalLiquidity walls = (walls.map (fun w => w.liquidity_value)).sum :=
    fun walls => foldl_add_eq_sum _ walls
  have hbuy : ∀ levels : List PriceLevel,
      aggBuyTotal levels =
        ((buyLevels levels).map (fun l => l.token1_liquidity)).sum :=
    fun levels => foldl_add_eq_sum _ (buyLevels levels)
  have hsell : ∀ levels : List PriceLevel,
      aggSellTotal levels =
        ((sellLevels levels).map (fun l => l.token1_liquidity)).sum :=
    fun levels => foldl_add_eq_sum _ (sellLevels levels)
  refine ⟨hwall, ?_, fun levels => ⟨hbuy levels, hsell levels⟩, ?_⟩
  · intro walls hpos
    rw [hwall]
    apply List.sum_nonneg
    intro x hx
    obtain ⟨w, hw, rfl⟩ := List.mem_map.mp hx
    exact hpos w hw
  · intro levels hpos
    constructor
    · rw [hbuy]
      apply List.sum_nonneg
      intro x hx
      obtain ⟨l, hl, rfl⟩ := List.mem_map.mp hx
      exact hpos l (List.mem_filter.mp hl).1
    · rw [hsell]
      apply List.sum_nonneg
      intro x hx
      obtain ⟨l, hl, rfl⟩ := List.mem_map.mp hx
      exact hpos l (List.mem_filter.mp hl).1

/-- Witness for `total_liquidity_sum_nonneg` at a concrete input: the
two-wall list of the spec's pair-mode scenario has non-negative total. -/
theorem total_liquidity_sum_nonneg_witness :
    0 ≤ totalLiquidity
      [{ price_lower := 1500, price_upper := 1550, liquidity_value := 35000000,
         dex_sources := [] },
       { price_lower := 1650, price_upper := 1700, liquidity_value := 30000000,
         dex_sources := [] }] := by
  apply total_liquidity_sum_nonneg.2.1
  intro w hw
  rcases List.mem_cons.mp hw with rfl | hw
  · norm_num
  · rcases List.mem_cons.mp hw with rfl | hw
    · norm_num
    · simp at hw

/-- C8: the buy/sell ratio is the quotient of the totals when the sell
total is positive and `0` when it is zero; the guard keeps the division
away from a zero denominator, so no NaN value can arise. -/
theorem buy_sell_ratio_guard (buyWalls sellWalls : List Wall) :
    (0 < totalLiquidity sellWalls →
        buyToSellRatio (totalLiquidity buyWalls) (totalLiquidity sellWalls) =
          totalLiquidity buyWalls / totalLiquidity sellWalls) ∧
    (totalLiquidity sellWalls = 0 →
        buyToSellRatio (totalLiquidity buyWalls) (totalLiquidity sellWalls) =
          0) := by
  constructor
  · intro hpos
    unfold buyToSellRatio
    rw [if_pos hpos]
  · intro hzero
    unfold buyToSellRatio
    rw [hzero, if_neg (lt_irrefl 0)]

/-- Witness for `buy_sell_ratio_guard`: with no sell walls the ratio is 0. -/
theorem buy_sell_ratio_guard_witness :
    buyToSellRatio
      (totalLiquidity
        [{ price_lower := 1500, price_upper := 1550,
           liquidity_value := 35000000, dex_sources := [] }])
      (totalLiquidity []) = 0 :=
  (buy_sell_ratio_guard _ []).2 rfl

/-- C9: the chart-series computation is a pure function of its arguments:
two invocations on the same `(data, currentPrice, scaleRange)` agree both as
whole lists and element by element.  In this embedding the source's
map/filter/sort chain holds no mutable state, so determinism is by
construction. -/
theorem chart_builder_deterministic (data : List ChartPoint)
    (currentPrice scaleRange : ℚ) (i : ℕ) :
    processedData data currentPrice scaleRange =
      processedData data currentPrice scaleRange ∧
    (processedData data currentPrice scaleRange).length =
      (processedData data currentPrice scaleRange).length ∧
    (processedData data currentPrice scaleRange)[i]? =
      (processedData data currentPrice scaleRange)[i]? :=
  ⟨rfl, rfl, rfl⟩

/-- C2: on an empty side the strongest-level result is `none`, and on a
nonempty side (sorted or not) it is the first element in input order
attaining the maximal key — every element is bounded by it and everything
strictly before it in the input is strictly smaller — in pair mode (keyed by
`liquidity_value`; buy walls and the selected sell walls go through the same
function) and in aggregate mode (keyed by `token1_liquidity` over the
side-filtered levels). -/
theorem strongest_wall_first_max :
    (∀ walls : List Wall,
        (walls = [] → strongestWall walls = none) ∧
        (walls ≠ [] →
          ∃ m l₁ l₂, strongestWall walls = some m ∧ walls = l₁ ++ m :: l₂ ∧
            (∀ w ∈ walls, w.liquidity_value ≤ m.liquidity_value) ∧
            ∀ w ∈ l₁, w.liquidity_value < m.liquidity_value)) ∧
    (∀ levels : List PriceLevel,
        (buyLevels levels = [] → strongestBuyLevel levels = none) ∧
        (buyLevels levels ≠ [] →
          ∃ m l₁ l₂, strongestBuyLevel levels = some m ∧
            buyLevels levels = l₁ ++ m :: l₂ ∧
            (∀ l ∈ buyLevels levels,
              l.token1_liquidity ≤ m.token1_liquidity) ∧
            ∀ l ∈ l₁, l.token1_liquidity < m.token1_liquidity) ∧
        (sellLevels levels = [] → strongestSellLevel levels = none) ∧
        (sellLevels levels ≠ [] →
          ∃ m l₁ l₂, strongestSellLevel levels = some m ∧
            sellLevels levels = l₁ ++ m :: l₂ ∧
            (∀ l ∈ sellLevels levels,
              l.token1_liquidity ≤ m.token1_liquidity) ∧
            ∀ l ∈ l₁, l.token1_liquidity < m.token1_liquidity)) := by
  refine ⟨fun walls => ⟨?_, ?_⟩, fun levels => ⟨?_, ?_, ?_, ?_⟩⟩
  · intro h; rw [h]; rfl
  · intro h
    exact pickStrongest_spec _ walls h
  · intro h
    unfold strongestBuyLevel
    rw [h]; rfl
  · intro h
    exact pickStrongest_spec _ (buyLevels levels) h
  · intro h
    unfold strongestSellLevel
    rw [h]; rfl
  · intro h
    exact pickStrongest_spec _ (sellLevels levels) h

/-- Witness for `strongest_wall_first_max` on a concrete tied input: two
walls of equal value, where the theorem yields the first-occurrence
decomposition. -/
theorem strongest_wall_first_max_witness :
    ∃ m l₁ l₂,
      strongestWall [⟨1, 2, 5, []⟩, ⟨3, 4, 5, []⟩] = some m ∧
      ([⟨1, 2, 5, []⟩, ⟨3, 4, 5, []⟩] : List Wall) = l₁ ++ m :: l₂ ∧
      (∀ w ∈ ([⟨1, 2, 5, []⟩, ⟨3, 4, 5, []⟩] : List Wall),
          w.liquidity_value ≤ m.liquidity_value) ∧
      ∀ w ∈ l₁, w.liquidity_value < m.liquidity_value :=
  (strongest_wall_first_max.1 [⟨1, 2, 5, []⟩, ⟨3, 4, 5, []⟩]).2 (by simp)

/-- C4 counterexample: with both totals zero (for instance, the totals of
empty wall lists) the rendered percentage share is NaN, not the `0` the
claim requires. -/
theorem share_zero_total_not_zero :
    buySharePercent (totalLiquidity []) (totalLiquidity []) = JSNum.nan ∧
    sellSharePercent (totalLiquidity []) (totalLiquidity []) = JSNum.nan ∧
    JSNum.nan ≠ JSNum.num 0 := by
  refine ⟨?_, ?_, fun h => JSNum.noConfusion h⟩ <;>
    simp [buySharePercent, sellSharePercent, jsDiv, jsMulConst, totalLiquidity]

/-- C4, amended: each side's percentage share is
`side total / (buy total + sell total) * 100` whenever the combined total is
nonzero; when the combined total is zero the expressions evaluate to NaN
(both sides zero) or a signed infinity (a nonzero side against an exactly
cancelling opposite side), never to `0` — the source divides without the
zero guard the claim describes. -/
theorem share_guarded_formula (totalBuy totalSell : ℚ) :
    (totalBuy + totalSell ≠ 0 →
        buySharePercent totalBuy totalSell =
          JSNum.num (totalBuy / (totalBuy + totalSell) * 100) ∧
        sellSharePercent totalBuy totalSell =
          JSNum.num (totalSell / (totalBuy + totalSell) * 100)) ∧
    (totalBuy + totalSell = 0 →
        (totalBuy = 0 →
          buySharePercent totalBuy totalSell = JSNum.nan ∧
          sellSharePercent totalBuy totalSell = JSNum.nan) ∧
        (0 < totalBuy →
          buySharePercent totalBuy totalSell = JSNum.posInf) ∧
        (totalBuy < 0 →
          buySharePercent totalBuy totalSell = JSNum.negInf)) := by
  constructor
  · intro h
    constructor <;>
      simp [buySharePercent, sellSharePercent, jsDiv, jsMulConst, h]
  · intro h
    refine ⟨?_, ?_, ?_⟩
    · intro hb
      have hsell : totalSell = 0 := by linarith
      constructor <;>
        simp [buySharePercent, sellSharePercent, jsDiv, jsMulConst, h, hb,
          hsell]
    · intro hb
      simp [buySharePercent, jsDiv, jsMulConst, h, ne_of_gt hb, hb]
    · intro hb
      simp [buySharePercent, jsDiv, jsMulConst, h, ne_of_lt hb,
        not_lt.mpr (le_of_lt hb)]

/-- Witness for `share_guarded_formula` at concrete totals `3` and `2`. -/
theorem share_guarded_formula_witness :
    buySharePercent 3 2 = JSNum.num (3 / 5 * 100) ∧
    sellSharePercent 3 2 = JSNum.num (2 / 5 * 100) := by
  have h := (share_guarded_formula 3 2).1 (by norm_num)
  norm_num at h ⊢
  exact h

/-- C5 counterexample: a level with `priceLower > priceUpper` (hence
malformed) is not discarded — it is counted in the total and selected as
the strongest wall, while the spec's filtered variants exclude it. -/
theorem malformed_level_not_discarded :
    wellFormedWall
        { price_lower := 2, price_upper := 1, liquidity_value := 5,
          dex_sources := [] } = false ∧
    totalLiquidity
        [{ price_lower := 2, price_upper := 1, liquidity_value := 5,
           dex_sources := [] }] = 5 ∧
    totalLiquiditySpec
        [{ price_lower := 2, price_upper := 1, liquidity_value := 5,
           dex_sources := [] }] = 0 ∧
    strongestWall
        [{ price_lower := 2, price_upper := 1, liquidity_value := 5,
           dex_sources := [] }] =
      some { price_lower := 2, price_upper := 1, liquidity_value := 5,
             dex_sources := [] } ∧
    strongestWallSpec
        [{ price_lower := 2, price_upper := 1, liquidity_value := 5,
           dex_sources := [] }] = none := by
  have hwf : wellFormedWall
      { price_lower := 2, price_upper := 1, liquidity_value := 5,
        dex_sources := [] } = false := by
    simp [wellFormedWall]
  refine ⟨hwf, ?_, ?_, ?_, ?_⟩
  · simp [totalLiquidity]
  · simp [totalLiquiditySpec, totalLiquidity, List.filter, hwf]
  · simp [strongestWall, pickStrongest, stepStrongest]
  · simp [strongestWallSpec, strongestWall, List.filter, hwf]
    rfl

/-- C5, amended: malformed levels (inverted price range or negative value)
are not discarded by the aggregation — the total is the spec's filtered
total plus exactly the malformed levels' contribution, and a malformed
level that strictly dominates is returned as the strongest wall;
processing of the remaining levels is unaffected. -/
theorem malformed_level_included (walls : List Wall) :
    totalLiquidity walls =
      totalLiquiditySpec walls +
        totalLiquidity (walls.filter fun w => !(wellFormedWall w)) ∧
    (∀ b ∈ walls, wellFormedWall b = false →
        (∀ x ∈ walls, x ≠ b → x.liquidity_value < b.liquidity_value) →
        strongestWall walls = some b) := by
  have htot : ∀ l : List Wall,
      totalLiquidity l = (l.map (fun w => w.liquidity_value)).sum :=
    fun l => foldl_add_eq_sum _ l
  constructor
  · unfold totalLiquiditySpec
    rw [htot, htot, htot]
    exact (sum_map_filter_add wellFormedWall (fun w => w.liquidity_value)
      walls).symm
  · intro b hb _ hdom
    exact pickStrongest_dominant _ walls b hb hdom

/-- Witness for `malformed_level_included`: a malformed wall of value 5
dominates a well-formed wall of value 3 and is selected as strongest. -/
theorem malformed_level_included_witness :
    strongestWall
        [{ price_lower := 1, price_upper := 2, liquidity_value := 3,
           dex_sources := [] },
         { price_lower := 2, price_upper := 1, liquidity_value := 5,
           dex_sources := [] }] =
      some { price_lower := 2, price_upper := 1, liquidity_value := 5,
             dex_sources := [] } := by
  apply (malformed_level_included _).2
  · simp
  · simp [wellFormedWall]
  · intro x hx hne
    rcases List.mem_cons.mp hx with rfl | hx
    · norm_num
    · rcases List.mem_cons.mp hx with rfl | hx
      · exact absurd rfl hne
      · simp at hx

/-- C10: a price level with a null `lower_price` or `upper_price` is
filtered out of the aggregate chart series before midpoints are computed,
yet its `token1_liquidity` still enters the side totals and it still
participates in (and can win) strongest-level selection. -/
theorem null_price_level_chart_vs_stats (l₁ l₂ : List PriceLevel)
    (bad : PriceLevel)
    (hnull : bad.lower_price = none ∨ bad.upper_price = none) :
    aggregateChartData (l₁ ++ bad :: l₂) = aggregateChartData (l₁ ++ l₂) ∧
    aggBuyTotal (l₁ ++ bad :: l₂) =
      aggBuyTotal (l₁ ++ l₂) +
        (if bad.side = Side.buy then bad.token1_liquidity else 0) ∧
    aggSellTotal (l₁ ++ bad :: l₂) =
      aggSellTotal (l₁ ++ l₂) +
        (if bad.side = Side.sell then bad.token1_liquidity else 0) ∧
    (bad.side = Side.buy →
        (∀ x ∈ l₁ ++ l₂, x.side = Side.buy →
            x.token1_liquidity < bad.token1_liquidity) →
        strongestBuyLevel (l₁ ++ bad :: l₂) = some bad) := by
  have hfilt : (bad.lower_price.isSome && bad.upper_price.isSome) = false := by
    rcases hnull with h | h <;> simp [h]
  have htotb : ∀ l, aggBuyTotal l =
      ((buyLevels l).map (fun x => x.token1_liquidity)).sum :=
    fun l => foldl_add_eq_sum _ _
  have htots : ∀ l, aggSellTotal l =
      ((sellLevels l).map (fun x => x.token1_liquidity)).sum :=
    fun l => foldl_add_eq_sum _ _
  refine ⟨?_, ?_, ?_, ?_⟩
  · simp [aggregateChartData, List.filter_append, List.filter_cons, hfilt]
  · by_cases hside : bad.side = Side.buy <;>
      simp [htotb, buyLevels, List.filter_append, List.filter_cons, hside] <;>
      ring
  · by_cases hside : bad.side = Side.sell <;>
      simp [htots, sellLevels, List.filter_append, List.filter_cons,
        hside] <;>
      ring
  · intro hside hdom
    unfold strongestBuyLevel
    apply pickStrongest_dominant
    · exact List.mem_filter.mpr
        ⟨List.mem_append_right _ (List.mem_cons_self _ _), by simp [hside]⟩
    · intro x hx hne
      obtain ⟨hxmem, hxside⟩ := List.mem_filter.mp hx
      have hxside' : x.side = Side.buy := by simpa using hxside
      have hx' : x ∈ l₁ ++ l₂ := by
        rcases List.mem_append.mp hxmem with h | h
        · exact List.mem_append_left _ h
        · rcases List.mem_cons.mp h with rfl | h
          · exact absurd rfl hne
          · exact List.mem_append_right _ h
      exact hdom x hx' hxside'

/-- Witness for `null_price_level_chart_vs_stats`: a level with a null
lower price and the largest `token1_liquidity` wins strongest-buy
selection. -/
theorem null_price_level_chart_vs_stats_witness :
    strongestBuyLevel
        [⟨Side.buy, some 1, some 2, 0, 3⟩, ⟨Side.buy, none, some 5, 0, 10⟩] =
      some ⟨Side.buy, none, some 5, 0, 10⟩ := by
  have h := (null_price_level_chart_vs_stats
      [⟨Side.buy, some 1, some 2, 0, 3⟩] [] ⟨Side.buy, none, some 5, 0, 10⟩
      (Or.inl rfl)).2.2.2 rfl ?_
  · simpa using h
  · intro x hx hside
    simp at hx
    subst hx
    norm_num

/-- C6: in pair mode the `WallPrice` setting computes every sell-side output
from `sell_walls_in_wall_price` and ignores `sell_walls_in_current_price`
entirely (and symmetrically for `CurrentPrice`); the buy-side outputs —
total, strongest wall, and the buy points of the chart series — are the
same under both modes; and in aggregate mode the pricing-mode selector has
no effect on any output. -/
theorem pricing_mode_selection :
    (∀ d : WallsResponse,
        (processPair PriceType.wall d).totalSellLiquidity =
          totalLiquidity d.sell_walls_in_wall_price ∧
        (processPair PriceType.wall d).strongestSellWall =
          strongestWall d.sell_walls_in_wall_price ∧
        (processPair PriceType.wall d).chartData =
          buildChartData d.buy_walls d.sell_walls_in_wall_price) ∧
    (∀ d : WallsResponse,
        (processPair PriceType.current d).totalSellLiquidity =
          totalLiquidity d.sell_walls_in_current_price ∧
        (processPair PriceType.current d).strongestSellWall =
          strongestWall d.sell_walls_in_current_price ∧
        (processPair PriceType.current d).chartData =
          buildChartData d.buy_walls d.sell_walls_in_current_price) ∧
    (∀ d d' : WallsResponse, d.buy_walls = d'.buy_walls →
        d.sell_walls_in_wall_price = d'.sell_walls_in_wall_price →
        processPair PriceType.wall d = processPair PriceType.wall d') ∧
    (∀ d d' : WallsResponse, d.buy_walls = d'.buy_walls →
        d.sell_walls_in_current_price = d'.sell_walls_in_current_price →
        processPair PriceType.current d = processPair PriceType.current d') ∧
    (∀ (priceType priceType' : PriceType) (d : WallsResponse),
        (processPair priceType d).totalBuyLiquidity =
          (processPair priceType' d).totalBuyLiquidity ∧
        (processPair priceType d).strongestBuyWall =
          (processPair priceType' d).strongestBuyWall) ∧
    (∀ (priceType : PriceType) (d : WallsResponse),
        List.Perm
          ((processPair priceType d).chartData.filter
            (fun p => decide (p.type = Side.buy)))
          (d.buy_walls.map mkBuyChartPoint)) ∧
    (∀ (priceType priceType' : PriceType) (levels : List PriceLevel),
        processAggregate priceType levels =
          processAggregate priceType' levels) := by
  refine ⟨fun d => ⟨rfl, rfl, rfl⟩, fun d => ⟨rfl, rfl, rfl⟩, ?_, ?_,
    fun priceType priceType' d => ⟨rfl, rfl⟩, ?_, fun _ _ _ => rfl⟩
  · intro d d' hb hs
    cases d with
    | mk b s1 s2 =>
      cases d' with
      | mk b' s1' s2' =>
        simp only at hb hs
        subst hb
        subst hs
        rfl
  · intro d d' hb hs
    cases d with
    | mk b s1 s2 =>
      cases d' with
      | mk b' s1' s2' =>
        simp only at hb hs
        subst hb
        subst hs
        rfl
  · intro priceType d
    have hperm := (List.mergeSort_perm
      (d.buy_walls.map mkBuyChartPoint ++
        (selectSellWalls priceType d).map mkSellChartPoint)
      (fun a b => decide (a.price ≤ b.price))).filter
      (fun p => decide (p.type = Side.buy))
    have hfb : (d.buy_walls.map mkBuyChartPoint).filter
        (fun p => decide (p.type = Side.buy)) =
        d.buy_walls.map mkBuyChartPoint := by
      apply List.filter_eq_self.mpr
      intro a ha
      obtain ⟨w, _, rfl⟩ := List.mem_map.mp ha
      simp [mkBuyChartPoint]
    have hfs : ((selectSellWalls priceType d).map mkSellChartPoint).filter
        (fun p => decide (p.type = Side.buy)) = [] := by
      apply List.filter_eq_nil_iff.mpr
      intro a ha
      obtain ⟨w, _, rfl⟩ := List.mem_map.mp ha
      simp [mkSellChartPoint]
    have hsplit : (d.buy_walls.map mkBuyChartPoint ++
        (selectSellWalls priceType d).map mkSellChartPoint).filter
        (fun p => decide (p.type = Side.buy)) =
        d.buy_walls.map mkBuyChartPoint := by
      rw [List.filter_append, hfb, hfs, List.append_nil]
    exact hsplit ▸ hperm

/-- Witness for `pricing_mode_selection`: two responses differing only in
the discarded `sell_walls_in_current_price` list give identical wall-price
outputs. -/
theorem pricing_mode_selection_witness :
    processPair PriceType.wall
        ⟨[⟨1500, 1550, 35000000, []⟩], [⟨1650, 1700, 30000000, []⟩],
          [⟨1600, 1620, 1, []⟩]⟩ =
      processPair PriceType.wall
        ⟨[⟨1500, 1550, 35000000, []⟩], [⟨1650, 1700, 30000000, []⟩], []⟩ :=
  pricing_mode_selection.2.2.1 _ _ rfl rfl

/-- C1: for positive current price and scale window, the chart series is a
permutation of exactly the annotated points of the input levels (midpoint
price, the level's value on its own side and `0` on the other) that fall in
the window; every emitted point satisfies the window bound and carries
`percentFromCurrent = (price - currentPrice) / currentPrice * 100`; and the
series is sorted ascending by `percentFromCurrent`. -/
theorem chartSeries_window_sorted (buyWalls sellWalls : List Wall)
    (currentPrice scaleRange : ℚ) (hcp : 0 < currentPrice)
    (hs : 0 < scaleRange) :
    List.Perm
      (processedData (buildChartData buyWalls sellWalls) currentPrice
        scaleRange)
      (((buyWalls.map mkBuyChartPoint ++ sellWalls.map mkSellChartPoint).map
          (annotatePoint currentPrice)).filter
        (fun q => decide (|q.percentageFromCurrent| ≤ scaleRange))) ∧
    (∀ q ∈ processedData (buildChartData buyWalls sellWalls) currentPrice
        scaleRange,
        |q.percentageFromCurrent| ≤ scaleRange ∧
        q.percentageFromCurrent =
          (q.price - currentPrice) / currentPrice * 100) ∧
    List.Pairwise
      (fun a b => a.percentageFromCurrent ≤ b.percentageFromCurrent)
      (processedData (buildChartData buyWalls sellWalls) currentPrice
        scaleRange) := by
  have perm0 := List.mergeSort_perm
    (((buildChartData buyWalls sellWalls).map
        (annotatePoint currentPrice)).filter
      (fun p => decide (|p.percentageFromCurrent| ≤ scaleRange)))
    (fun a b => decide (a.percentageFromCurrent ≤ b.percentageFromCurrent))
  have permChart := List.mergeSort_perm
    (buyWalls.map mkBuyChartPoint ++ sellWalls.map mkSellChartPoint)
    (fun a b => decide (a.price ≤ b.price))
  have perm1 : List.Perm
      (processedData (buildChartData buyWalls sellWalls) currentPrice
        scaleRange)
      (((buyWalls.map mkBuyChartPoint ++
          sellWalls.map mkSellChartPoint).map
          (annotatePoint currentPrice)).filter
        (fun q => decide (|q.percentageFromCurrent| ≤ scaleRange))) :=
    perm0.trans ((permChart.map (annotatePoint currentPrice)).filter _)
  refine ⟨perm1, ?_, ?_⟩
  · intro q hq
    have hq' : q ∈ ((buildChartData buyWalls sellWalls).map
        (annotatePoint currentPrice)).filter
        (fun p => decide (|p.percentageFromCurrent| ≤ scaleRange)) :=
      perm0.mem_iff.mp hq
    obtain ⟨hmem, hpred⟩ := List.mem_filter.mp hq'
    refine ⟨of_decide_eq_true hpred, ?_⟩
    obtain ⟨p, _, rfl⟩ := List.mem_map.mp hmem
    rfl
  · have htrans : ∀ a b c : AnnotatedChartPoint,
        decide (a.percentageFromCurrent ≤ b.percentageFromCurrent) = true →
        decide (b.percentageFromCurrent ≤ c.percentageFromCurrent) = true →
        decide (a.percentageFromCurrent ≤ c.percentageFromCurrent) = true :=
      fun a b c hab hbc => decide_eq_true
        (le_trans (of_decide_eq_true hab) (of_decide_eq_true hbc))
    have htotal : ∀ a b : AnnotatedChartPoint,
        (decide (a.percentageFromCurrent ≤ b.percentageFromCurrent) ||
          decide (b.percentageFromCurrent ≤ a.percentageFromCurrent)) =
          true := by
      intro a b
      rcases le_total a.percentageFromCurrent b.percentageFromCurrent with
        h | h <;> simp [h]
    have hp := List.sorted_mergeSort htrans htotal
      (((buildChartData buyWalls sellWalls).map
          (annotatePoint currentPrice)).filter
        (fun p => decide (|p.percentageFromCurrent| ≤ scaleRange)))
    exact hp.imp (fun h => of_decide_eq_true h)

/-- Witness for `chartSeries_window_sorted` on the spec's pair-mode
scenario: one buy wall, one sell wall, current price 1625.75, window 10. -/
theorem chartSeries_window_sorted_witness :
    (0 : ℚ) < 1625.75 ∧ (0 : ℚ) < 10 ∧
    List.Pairwise
      (fun a b => a.percentageFromCurrent ≤ b.percentageFromCurrent)
      (processedData
        (buildChartData [⟨1500, 1550, 35000000, []⟩]
          [⟨1650, 1700, 30000000, []⟩])
        1625.75 10) :=
  ⟨by norm_num, by norm_num,
    (chartSeries_window_sorted [⟨1500, 1550, 35000000, []⟩]
      [⟨1650, 1700, 30000000, []⟩] 1625.75 10 (by norm_num)
      (by norm_num)).2.2⟩

/-- C7 counterexample: at `p = 0.0000009999999999995` (six zero digits after
the decimal point, so the claim demands `min(6+4,12) = 10` decimals) the
source rounds `p.toFixed(12)` up to `0.000001000000`, counts only five
zeros, and renders 9 decimals. -/
theorem formatPrice_rounding_boundary :
    priceDecimals ((9999999999995 : ℚ) / 10 ^ 19) = some 9 ∧
    priceDecimalsSpec ((9999999999995 : ℚ) / 10 ^ 19) = some 10 := by
  have hsmall : (9999999999995 : ℚ) / 10 ^ 19 < 1 / 10 ^ 6 := by norm_num
  have hlo7 : (1 : ℚ) / 10 ^ (6 + 1) ≤ (9999999999995 : ℚ) / 10 ^ 19 := by
    norm_num
  have htrue : trueLeadingZeros ((9999999999995 : ℚ) / 10 ^ 19) = 6 :=
    countLeadingZeroDigits_eq 6 12 _ (by omega) hlo7 hsmall
  have hfloor : ⌊(9999999999995 : ℚ) / 10 ^ 19 * 10 ^ 12 + 1 / 2⌋ =
      1000000 := by
    rw [Int.floor_eq_iff]
    constructor <;> norm_num
  have hscaled : toFixedScaled ((9999999999995 : ℚ) / 10 ^ 19) 12 =
      1000000 := by
    unfold toFixedScaled
    rw [hfloor]
    rfl
  have hstring : stringLeadingZeros ((9999999999995 : ℚ) / 10 ^ 19) = 5 := by
    unfold stringLeadingZeros
    rw [if_pos hsmall, hscaled]
    decide
  have hnot1000 : ¬ (1000 : ℚ) ≤ (9999999999995 : ℚ) / 10 ^ 19 := by
    norm_num
  have hnot1 : ¬ (1 : ℚ) ≤ (9999999999995 : ℚ) / 10 ^ 19 := by norm_num
  have hne0 : ¬ (9999999999995 : ℚ) / 10 ^ 19 = 0 := by norm_num
  constructor
  · unfold priceDecimals
    rw [if_neg hnot1000, if_neg hnot1, if_neg hne0, hstring]
    norm_num
  · unfold priceDecimalsSpec
    rw [if_neg hnot1000, if_neg hnot1, if_neg hne0, htrue]
    norm_num

/-- C7, amended: the decimal-place rule as claimed holds verbatim for
`price >= 1000`, `1 <= price < 1000`, `price = 0` and the whole range
`10^-6 <= price < 1` (where the string scanned is exact); below `10^-6`
the count of leading zeros is taken from the price rounded to 12 decimal
places (`toFixed(12)`), which for a price within `5 * 10^-13` below a power
of ten is one less than the count of zero digits of the price itself, and
the `leadingZeros >= 3` branch always applies there. -/
theorem formatPrice_decimals_rule (p : ℚ) (h0 : 0 ≤ p) :
    (1000 ≤ p → priceDecimals p = some 2) ∧
    (1 ≤ p → p < 1000 → priceDecimals p = some 4) ∧
    (p = 0 → priceDecimals p = none) ∧
    (∀ k : ℕ, 1 / 10 ^ 6 ≤ p → p < 1 → (1 : ℚ) / 10 ^ (k + 1) ≤ p →
        p < 1 / 10 ^ k →
        priceDecimals p = some (if 3 ≤ k then min (k + 4) 12 else 6)) ∧
    (0 < p → p < 1 / 10 ^ 6 →
        priceDecimals p =
          some (min (padCount 12 (toFixedScaled p 12) + 4) 12)) := by
  refine ⟨?_, ?_, ?_, ?_, ?_⟩
  · intro h
    unfold priceDecimals
    rw [if_pos h]
  · intro h1 h2
    unfold priceDecimals
    rw [if_neg (not_le.mpr h2), if_pos h1]
  · intro h
    subst h
    unfold priceDecimals
    norm_num
  · intro k h6 h1 hlo hhi
    have hppos : 0 < p := lt_of_lt_of_le (by positivity) hlo
    have hk6 : k < 6 := by
      by_contra hk
      push_neg at hk
      have hpow : (10 : ℚ) ^ 6 ≤ 10 ^ k :=
        pow_le_pow_right₀ (by norm_num) hk
      have : (1 : ℚ) / 10 ^ k ≤ 1 / 10 ^ 6 :=
        one_div_le_one_div_of_le (by positivity) hpow
      linarith
    have hcount : countLeadingZeroDigits 12 p = k :=
      countLeadingZeroDigits_eq k 12 p (by omega) hlo hhi
    have hstring : stringLeadingZeros p = k := by
      unfold stringLeadingZeros
      rw [if_neg (not_lt.mpr h6), hcount]
    unfold priceDecimals
    rw [if_neg (not_le.mpr (lt_trans h1 (by norm_num))),
      if_neg (not_le.mpr h1), if_neg hppos.ne', hstring]
  · intro hpos hsmall
    obtain ⟨hout, hge⟩ := stringLeadingZeros_small p hsmall
    have hp1 : p < 1 := lt_trans hsmall (by norm_num)
    unfold priceDecimals
    rw [if_neg (not_le.mpr (lt_trans hp1 (by norm_num))),
      if_neg (not_le.mpr hp1), if_neg hpos.ne', hout,
      if_pos (by omega : 3 ≤ padCount 12 (toFixedScaled p 12))]

/-- Witness for `formatPrice_decimals_rule` at the claim's own example
`0.000123`: three leading zeros give `3 + 4 = 7` decimal places. -/
theorem formatPrice_decimals_rule_witness :
    priceDecimals ((123 : ℚ) / 10 ^ 6) = some 7 := by
  have h := (formatPrice_decimals_rule ((123 : ℚ) / 10 ^ 6)
      (by norm_num)).2.2.2.1 3 (by norm_num) (by norm_num) (by norm_num)
      (by norm_num)
  norm_num at h
  exact h
